import Mathlib

/-!
Shallow embedding of the MCP_Atom_of_Thoughts instance-coordination code:
`port-checker.ts`, `websocket-server.ts`, `visualization-server.ts` and the
launcher/supervisor in `launcher.ts`.  Pure data flow is modelled directly;
the event-driven parts (bind outcomes, connect attempts, child-process
events) are modelled by passing the outcome of each external interaction as
an explicit argument, and a thrown JavaScript exception is modelled with
`Except`.
-/

namespace AoT

/-! ### port-checker.ts -/

/-- Outcome of `server.listen(port)` in `isPortAvailable`: either the
`listening` event fires, or the `error` event fires carrying an error code
string such as "EADDRINUSE". -/
inductive BindOutcome
  | listening
  | errored (code : String)
deriving DecidableEq, Repr

/-- `isPortAvailable(port)` from `port-checker.ts`: resolves `false` exactly
when the bind fails with code "EADDRINUSE"; resolves `true` when the bind
succeeds (after closing the probe server) and on any other bind error. -/
def isPortAvailable : BindOutcome → Bool
  | .listening => true
  | .errored code => if code = "EADDRINUSE" then false else true

/-- One event of the `waitForServerOnPort` loop: a `canConnectToPort` call
(with its attempt index and result) or a `setTimeout` sleep of the given
number of milliseconds. -/
inductive WaitEv
  | connectAttempt (attempt : Nat) (ok : Bool)
  | sleep (ms : Nat)
deriving DecidableEq, Repr

/-- The `for (let attempt = 0; attempt < maxAttempts; attempt++)` loop of
`waitForServerOnPort`, recursing on the number of remaining iterations.
`canConnect` gives the result of `canConnectToPort(port)` at each attempt
index.  On a successful connect the loop returns `true` at once; otherwise it
sleeps `intervalMs` and continues; after the last attempt it returns
`false`.  Returns the final result together with the trace of events. -/
def waitGo (canConnect : Nat → Bool) (intervalMs : Nat) :
    Nat → Nat → Bool × List WaitEv
  | _, 0 => (false, [])
  | attempt, remaining + 1 =>
    if canConnect attempt then
      (true, [WaitEv.connectAttempt attempt true])
    else
      let rest := waitGo canConnect intervalMs (attempt + 1) remaining
      (rest.1, WaitEv.connectAttempt attempt false :: WaitEv.sleep intervalMs :: rest.2)

/-- `waitForServerOnPort(port, maxAttempts, intervalMs)` from
`port-checker.ts` (defaults: `maxAttempts = 10`, `intervalMs = 500`). -/
def waitForServerOnPort (canConnect : Nat → Bool) (maxAttempts intervalMs : Nat) :
    Bool × List WaitEv :=
  waitGo canConnect intervalMs 0 maxAttempts

/-- Number of `canConnectToPort` calls in a trace. -/
def countConnects : List WaitEv → Nat
  | [] => 0
  | .connectAttempt _ _ :: tr => countConnects tr + 1
  | .sleep _ :: tr => countConnects tr

/-- Number of sleeps in a trace. -/
def countSleeps : List WaitEv → Nat
  | [] => 0
  | .connectAttempt _ _ :: tr => countSleeps tr
  | .sleep _ :: tr => countSleeps tr + 1

/-- Every sleep event of the trace sleeps exactly `intervalMs`. -/
def sleepsAre (intervalMs : Nat) : List WaitEv → Bool
  | [] => true
  | .connectAttempt _ _ :: tr => sleepsAre intervalMs tr
  | .sleep ms :: tr => ms = intervalMs && sleepsAre intervalMs tr

/-! ### websocket-server.ts -/

/-- An opaque handle standing for a constructed `ws` `WSServer` object. -/
structure WSHandle where
  handleId : Nat
deriving DecidableEq, Repr

/-- The fields of the `WebSocketServer` class: the nullable `wss` handle
(`null` is `none`), the set of connected clients (by client id), and the
port. -/
structure WebSocketServerState where
  wss : Option WSHandle
  clients : List Nat
  port : Nat
deriving DecidableEq, Repr

/-- A JavaScript method call `wss.on(event, handler)` on the nullable
handle: on `null` it throws a `TypeError`; otherwise it registers the
handler and returns. -/
def wsOn (wss : Option WSHandle) (event : String) : Except String Unit :=
  match wss with
  | none => .error ("TypeError: cannot read property on of null, event " ++ event)
  | some _ => .ok ()

/-- The `WebSocketServer` constructor from `websocket-server.ts`: it stores
the port, assigns `null` to `this.wss`, and then immediately calls
`this.wss.on` for the `connection`, `listening` and `error` events. -/
def WebSocketServer.construct (port : Nat) : Except String WebSocketServerState := do
  let wss : Option WSHandle := none
  wsOn wss "connection"
  wsOn wss "listening"
  wsOn wss "error"
  pure { wss := wss, clients := [], port := port }

/-- Outcome of `new WSServer({ port })` inside `init`: either a handle, or a
synchronously thrown exception with a message. -/
inductive CreateOutcome
  | ok (h : WSHandle)
  | threw (msg : String)
deriving DecidableEq, Repr

/-- `WebSocketServer.init` from `websocket-server.ts`.  Its whole body is a
`try`/`catch` whose `catch` returns `false`: if the port probe reports the
port in use it logs and returns `false`; otherwise it creates the server,
registers the handlers, and returns `true`; a throw during creation is
caught and turned into `false`.  The `Except` layer records whether the
method itself raises; it never does. -/
def WebSocketServer.init (st : WebSocketServerState) (portAvailable : Bool)
    (create : CreateOutcome) : Except String (Bool × WebSocketServerState) :=
  if portAvailable = false then
    .ok (false, st)
  else
    match create with
    | .ok h => .ok (true, { st with wss := some h })
    | .threw _ => .ok (false, st)

/-! ### visualization-server.ts (embedded in IMPLEMENTATION_SUMMARY.md) -/

/-- The closed `atomType` union of the `Atom` interface. -/
inductive AtomType
  | premise
  | reasoning
  | hypothesis
  | verification
  | conclusion
deriving DecidableEq, Repr

/-- The `Atom` interface of `visualization-server.ts`.  `confidence` is a
JavaScript number, modelled as a rational; `depth` is optional. -/
structure Atom where
  atomId : String
  content : String
  atomType : AtomType
  dependencies : List String
  confidence : ℚ
  isVerified : Bool
  depth : Option Nat
  created : Nat
deriving DecidableEq, Repr

/-- A JavaScript `Record<string, Atom>`: an association list in key
insertion order, as JS objects enumerate string keys.  `recordSet` models
`obj[k] = v`: it overwrites in place when the key exists and appends a new
key at the end otherwise. -/
def recordSet (m : List (String × Atom)) (k : String) (v : Atom) :
    List (String × Atom) :=
  if m.any fun p => p.1 = k then
    m.map fun p => if p.1 = k then (k, v) else p
  else
    m ++ [(k, v)]

/-- `obj[k]` on the record model. -/
def recordGet (m : List (String × Atom)) (k : String) : Option Atom :=
  (m.find? fun p => p.1 = k).map Prod.snd

/-- `Object.values(obj)`: the values in key insertion order. -/
def recordValues (m : List (String × Atom)) : List Atom :=
  m.map Prod.snd

/-- The socket.io events emitted by the visualization server: the initial
snapshot (`atoms-update`), a single atom (`atom-update`), and the full order
(`atoms-order`). -/
inductive SocketMsg
  | atomsUpdate (atoms : List Atom) (atomOrder : List String)
  | atomUpdate (atom : Atom)
  | atomsOrder (order : List String)
deriving DecidableEq, Repr

/-- The graph state of `VisualizationServer`: the `atoms` record and the
`atomOrder` array. -/
structure VisualizationServer where
  atoms : List (String × Atom)
  atomOrder : List String
deriving DecidableEq, Repr

/-- The initial state set up by the `VisualizationServer` constructor:
`atoms = {}`, `atomOrder = []`. -/
def VisualizationServer.empty : VisualizationServer :=
  { atoms := [], atomOrder := [] }

/-- `VisualizationServer.updateAtom(atom)`: stores the atom under its id
(last write wins), appends the id to `atomOrder` only if it is new, and
emits `atom-update` with the atom followed by `atoms-order` with the
current full order, to all connected clients.  Returns the new state and
the emitted messages in emission order. -/
def VisualizationServer.updateAtom (s : VisualizationServer) (a : Atom) :
    VisualizationServer × List SocketMsg :=
  let atoms := recordSet s.atoms a.atomId a
  let atomOrder :=
    if a.atomId ∈ s.atomOrder then s.atomOrder else s.atomOrder ++ [a.atomId]
  (⟨atoms, atomOrder⟩, [SocketMsg.atomUpdate a, SocketMsg.atomsOrder atomOrder])

/-- The snapshot served by the `/api/atoms` route of `setupRoutes`:
`{ atoms: Object.values(this.atoms), atomOrder: this.atomOrder }`. -/
def VisualizationServer.snapshot (s : VisualizationServer) :
    List Atom × List String :=
  (recordValues s.atoms, s.atomOrder)

/-- The `atoms-update` message `setupSocketIO` emits to a newly connected
client: the same snapshot data. -/
def VisualizationServer.onConnection (s : VisualizationServer) : SocketMsg :=
  SocketMsg.atomsUpdate (recordValues s.atoms) s.atomOrder

/-- The graph state after publishing the given atoms, in order, starting
from the constructor's empty state. -/
def VisualizationServer.publishAll (l : List Atom) : VisualizationServer :=
  l.foldl (fun s a => (s.updateAtom a).1) VisualizationServer.empty

/-- The graph-state invariant: `atomOrder` has no duplicates, the record
keys have no duplicates, and `atomOrder` holds exactly the record keys. -/
def Inv (s : VisualizationServer) : Prop :=
  s.atomOrder.Nodup ∧ (s.atoms.map Prod.fst).Nodup ∧
  (∀ k ∈ s.atomOrder, k ∈ s.atoms.map Prod.fst) ∧
  (∀ k ∈ s.atoms.map Prod.fst, k ∈ s.atomOrder)

instance (s : VisualizationServer) : Decidable (Inv s) := by
  unfold Inv; infer_instance

/-- The observer's client-side state kept by the visualization page: its
`atoms` dictionary and `atomOrder` array. -/
structure ObserverState where
  atoms : List (String × Atom)
  atomOrder : List String
deriving DecidableEq, Repr

/-- The page's socket handlers: `atoms-update` merges every atom of the
snapshot and replaces the order; `atom-update` stores the one atom under
its id; `atoms-order` replaces the order. -/
def ObserverState.applyMsg (o : ObserverState) : SocketMsg → ObserverState
  | .atomsUpdate atoms order =>
    ⟨atoms.foldl (fun m a => recordSet m a.atomId a) o.atoms, order⟩
  | .atomUpdate a => ⟨recordSet o.atoms a.atomId a, o.atomOrder⟩
  | .atomsOrder order => ⟨o.atoms, order⟩

/-- The first atom of the spec's scenario: `{id:"a1", kind:"premise",
dependencies:[], confidence:0.9, verified:false}`. -/
def exampleAtom1 : Atom :=
  { atomId := "a1", content := "premise a1", atomType := AtomType.premise,
    dependencies := [], confidence := 9/10, isVerified := false,
    depth := none, created := 0 }

/-- The second atom of the spec's scenario: `{id:"a2", kind:"reasoning",
dependencies:["a1"], confidence:0.7, verified:false}`. -/
def exampleAtom2 : Atom :=
  { atomId := "a2", content := "reasoning a2", atomType := AtomType.reasoning,
    dependencies := ["a1"], confidence := 7/10, isVerified := false,
    depth := none, created := 1 }

/-- A republication of id "a1" with different content, kind, dependency set
and flags, for the last-write-wins scenario. -/
def exampleAtom1b : Atom :=
  { atomId := "a1", content := "revised a1", atomType := AtomType.verification,
    dependencies := ["a2"], confidence := 1/2, isVerified := true,
    depth := some 1, created := 2 }

/-! ### launcher.ts (the instance supervisor) -/

/-- A tracked child in the launcher's `processes` array: its name, its
`process.killed` flag, and whether a `kill()` call on it would throw. -/
structure ProcInfo where
  name : String
  killed : Bool
  killThrows : Bool
deriving DecidableEq, Repr

/-- What `cleanup`'s per-child `try { if (!p.process.killed) p.process.kill() }
catch { log }` block does to one child. -/
inductive KillResult
  | killedOk (name : String)
  | killFailed (name : String)
  | skippedAlreadyKilled (name : String)
deriving DecidableEq, Repr

/-- One iteration of `cleanup`'s `forEach` body: skip a child already
killed, otherwise attempt `kill()`; a throw is caught and logged so the
iteration still completes. -/
def tryKill (p : ProcInfo) : KillResult :=
  if p.killed then .skippedAlreadyKilled p.name
  else if p.killThrows then .killFailed p.name
  else .killedOk p.name

/-- `cleanup()` from `launcher.ts`: iterates over every tracked child with
the per-child `try`/`catch` above (then exits with code 0). -/
def cleanup (ps : List ProcInfo) : List KillResult :=
  ps.map tryKill

/-- The child-process events the launcher registers handlers for: `error`
and `exit` of the MCP server child, and `error` and `exit` of the
visualization server child.  `exit` carries the exit code and signal. -/
inductive SupEvent
  | mcpSpawnErr
  | mcpExit (code : Option Int) (signal : Option String)
  | visSpawnErr
  | visExit (code : Option Int) (signal : Option String)
deriving DecidableEq, Repr

/-- The launcher's handlers, as the kill attempts they perform on the
tracked children: both MCP handlers call `cleanup()`; both visualization
handlers only log and perform no kill. -/
def handleEvent (ps : List ProcInfo) : SupEvent → List KillResult
  | .mcpSpawnErr => cleanup ps
  | .mcpExit _ _ => cleanup ps
  | .visSpawnErr => []
  | .visExit _ _ => []

end AoT

namespace AoT

/-! ### Helper lemmas about the JS record model -/

theorem any_key_iff (m : List (String × Atom)) (k : String) :
    (m.any fun p => p.1 = k) = true ↔ k ∈ m.map Prod.fst := by
  simp [List.any_eq_true, List.mem_map]

theorem recordSet_unfold_pos {m : List (String × Atom)} {k : String} (v : Atom)
    (h : k ∈ m.map Prod.fst) :
    recordSet m k v = m.map fun p => if p.1 = k then (k, v) else p := by
  unfold recordSet
  rw [if_pos ((any_key_iff m k).2 h)]

theorem recordSet_unfold_neg {m : List (String × Atom)} {k : String} (v : Atom)
    (h : k ∉ m.map Prod.fst) :
    recordSet m k v = m ++ [(k, v)] := by
  unfold recordSet
  rw [if_neg]
  intro hc
  exact h ((any_key_iff m k).1 hc)

theorem recordSet_keys_of_mem {m : List (String × Atom)} {k : String} (v : Atom)
    (h : k ∈ m.map Prod.fst) :
    (recordSet m k v).map Prod.fst = m.map Prod.fst := by
  rw [recordSet_unfold_pos v h, List.map_map]
  apply List.map_congr_left
  intro p _
  by_cases hk : p.1 = k <;> simp [Function.comp, hk]

theorem recordSet_keys_of_not_mem {m : List (String × Atom)} {k : String} (v : Atom)
    (h : k ∉ m.map Prod.fst) :
    (recordSet m k v).map Prod.fst = m.map Prod.fst ++ [k] := by
  rw [recordSet_unfold_neg v h]
  simp

theorem find?_replace (m : List (String × Atom)) (k : String) (v : Atom)
    (h : k ∈ m.map Prod.fst) :
    ((m.map fun p => if p.1 = k then (k, v) else p).find? fun p => p.1 = k) = some (k, v) := by
  induction m with
  | nil => simp at h
  | cons q m ih =>
    by_cases hq : q.1 = k
    · simp only [List.map_cons, if_pos hq]
      rw [List.find?_cons_of_pos]
      simp
    · simp only [List.map_cons, if_neg hq]
      rw [List.find?_cons_of_neg]
      · apply ih
        rcases List.mem_map.1 h with ⟨p, hp, he⟩
        rcases List.mem_cons.mp hp with h1 | h2
        · subst h1; exact absurd he hq
        · exact List.mem_map.2 ⟨p, h2, he⟩
      · simp [hq]

theorem recordGet_recordSet_self (m : List (String × Atom)) (k : String) (v : Atom) :
    recordGet (recordSet m k v) k = some v := by
  by_cases h : k ∈ m.map Prod.fst
  · rw [recordSet_unfold_pos v h]
    unfold recordGet
    rw [find?_replace m k v h]
    rfl
  · rw [recordSet_unfold_neg v h]
    unfold recordGet
    rw [List.find?_append]
    have hnone : (m.find? fun p => p.1 = k) = none := by
      rw [List.find?_eq_none]
      intro p hp hc
      exact h (List.mem_map.2 ⟨p, hp, by simpa using hc⟩)
    rw [hnone]
    simp

theorem recordSet_idem (m : List (String × Atom)) (k : String) (v : Atom) :
    recordSet (recordSet m k v) k v = recordSet m k v := by
  by_cases h : k ∈ m.map Prod.fst
  · have hk : k ∈ (recordSet m k v).map Prod.fst := by
      rw [recordSet_keys_of_mem v h]; exact h
    rw [recordSet_unfold_pos v hk, recordSet_unfold_pos v h, List.map_map]
    apply List.map_congr_left
    intro p _
    by_cases hpk : p.1 = k <;> simp [Function.comp, hpk]
  · have hk : k ∈ (recordSet m k v).map Prod.fst := by
      rw [recordSet_keys_of_not_mem v h]; simp
    rw [recordSet_unfold_pos v hk, recordSet_unfold_neg v h, List.map_append]
    have hm : (m.map fun p => if p.1 = k then (k, v) else p) = List.map id m := by
      apply List.map_congr_left
      intro p hp
      have hpk : p.1 ≠ k := by
        intro hc
        exact h (List.mem_map.2 ⟨p, hp, hc⟩)
      simp [hpk]
    rw [hm, List.map_id]
    simp

theorem recordGet_isSome_iff (m : List (String × Atom)) (k : String) :
    (recordGet m k).isSome = true ↔ k ∈ m.map Prod.fst := by
  unfold recordGet
  simp [List.find?_isSome, List.mem_map]

end AoT

namespace AoT

/-! ### Claim theorems: port prober and WebSocket server -/

/-- C3: `isPortAvailable` returns true when the bind succeeds, returns
false exactly when the bind fails with the address-already-in-use error
code "EADDRINUSE", and returns true for any other bind failure (the
optimistic default). -/
theorem c3_isPortAvailable_spec :
    isPortAvailable BindOutcome.listening = true ∧
    (∀ o : BindOutcome,
      isPortAvailable o = false ↔ o = BindOutcome.errored "EADDRINUSE") ∧
    (∀ code : String, code ≠ "EADDRINUSE" →
      isPortAvailable (BindOutcome.errored code) = true) := by
  refine ⟨rfl, ?_, ?_⟩
  · intro o
    cases o with
    | listening => simp [isPortAvailable]
    | errored code =>
      by_cases h : code = "EADDRINUSE" <;> simp [isPortAvailable, h]
  · intro code h
    simp [isPortAvailable, h]

/-- Witness for C3 at concrete inputs: a bind failure with code "EACCES"
(a permission error) still reports the port available. -/
theorem c3_isPortAvailable_witness :
    ("EACCES" : String) ≠ "EADDRINUSE" ∧
    isPortAvailable (BindOutcome.errored "EACCES") = true :=
  ⟨by decide, c3_isPortAvailable_spec.2.2 "EACCES" (by decide)⟩

/-- C1: `WebSocketServer.init` returns `true` exactly when the port probe
reports the port available and the `new WSServer` creation proceeds;
it returns `false` when the probe reports the port in use (leaving the
state unchanged), and it never raises: every outcome is an ordinary
`.ok` return, the port-taken outcome in particular. -/
theorem c1_init_spec :
    ∀ (st : WebSocketServerState) (c : CreateOutcome),
      WebSocketServer.init st false c = Except.ok (false, st) ∧
      (∀ h : WSHandle, WebSocketServer.init st true (CreateOutcome.ok h) =
        Except.ok (true, { st with wss := some h })) ∧
      (∀ p : Bool, (WebSocketServer.init st p c).isOk = true) ∧
      (∀ p : Bool,
        (∃ st2, WebSocketServer.init st p c = Except.ok (true, st2)) ↔
          (p = true ∧ ∃ h, c = CreateOutcome.ok h)) := by
  intro st c
  refine ⟨rfl, fun h => rfl, ?_, ?_⟩
  · intro p
    cases p <;> cases c <;> rfl
  · intro p
    cases p <;> cases c <;> simp [WebSocketServer.init]

/-- C2: the `WebSocketServer` constructor assigns `null` to `this.wss` and
then immediately calls `this.wss.on('connection', ...)` on that null
handle, so for every port the construction throws a `TypeError` and no
instance is ever produced. -/
theorem c2_constructor_always_throws :
    ∀ port : Nat,
      WebSocketServer.construct port =
        Except.error "TypeError: cannot read property on of null, event connection" ∧
      (WebSocketServer.construct port).isOk = false := by
  intro port
  exact ⟨rfl, rfl⟩

/-! ### Claim theorems: the supervisor (launcher.ts) -/

/-- C8: an exit of the MCP (Control Server) child — for any exit code and
signal — runs `cleanup`, which attempts a kill on every tracked child
(one attempt per tracked child, in order); an exit or spawn error of the
visualization (Graph Server) child performs no kill attempt at all. -/
theorem c8_mcp_exit_teardown :
    ∀ (ps : List ProcInfo) (code : Option Int) (signal : Option String),
      handleEvent ps (SupEvent.mcpExit code signal) = ps.map tryKill ∧
      (handleEvent ps (SupEvent.mcpExit code signal)).length = ps.length ∧
      handleEvent ps SupEvent.mcpSpawnErr = ps.map tryKill ∧
      handleEvent ps (SupEvent.visExit code signal) = [] ∧
      handleEvent ps SupEvent.visSpawnErr = [] := by
  intro ps code signal
  refine ⟨rfl, ?_, rfl, rfl, rfl⟩
  simp [handleEvent, cleanup]

/-- C9: `cleanup` attempts to terminate every tracked child, and a child
whose kill attempt throws (caught by the per-child `try`/`catch`) does not
prevent the kill attempts on the children processed after it: the results
for the remaining children are exactly what `cleanup` produces on them
alone. -/
theorem c9_cleanup_collect_and_continue :
    ∀ (ps1 ps2 : List ProcInfo) (p : ProcInfo),
      tryKill p = KillResult.killFailed p.name →
      cleanup (ps1 ++ p :: ps2) =
        cleanup ps1 ++ KillResult.killFailed p.name :: cleanup ps2 ∧
      (cleanup (ps1 ++ p :: ps2)).length = ps1.length + 1 + ps2.length := by
  intro ps1 ps2 p h
  constructor
  · simp [cleanup, h]
  · simp [cleanup]
    omega

/-- Witness for C9 at a concrete input: a tracked list of an MCP child, a
stuck child whose kill throws, and a healthy child; the stuck child's
failure leaves the attempts on the others intact. -/
theorem c9_cleanup_witness :
    tryKill ⟨"Visualization server", false, true⟩ =
      KillResult.killFailed (ProcInfo.name ⟨"Visualization server", false, true⟩) ∧
    (cleanup ([⟨"MCP server", false, false⟩] ++
        (⟨"Visualization server", false, true⟩ : ProcInfo) :: [⟨"Worker", true, false⟩]) =
      cleanup [⟨"MCP server", false, false⟩] ++
        KillResult.killFailed (ProcInfo.name ⟨"Visualization server", false, true⟩) ::
          cleanup [⟨"Worker", true, false⟩] ∧
    (cleanup ([⟨"MCP server", false, false⟩] ++
        (⟨"Visualization server", false, true⟩ : ProcInfo) :: [⟨"Worker", true, false⟩])).length =
      [(⟨"MCP server", false, false⟩ : ProcInfo)].length + 1 +
        [(⟨"Worker", true, false⟩ : ProcInfo)].length) :=
  ⟨by decide,
   c9_cleanup_collect_and_continue [⟨"MCP server", false, false⟩] [⟨"Worker", true, false⟩]
     ⟨"Visualization server", false, true⟩ (by decide)⟩

end AoT

namespace AoT

/-! ### Lemmas about updateAtom and the graph-state invariant -/

theorem updateAtom_atoms (s : VisualizationServer) (a : Atom) :
    ((s.updateAtom a).1).atoms = recordSet s.atoms a.atomId a := rfl

theorem updateAtom_order_mem (s : VisualizationServer) (a : Atom)
    (h : a.atomId ∈ s.atomOrder) :
    ((s.updateAtom a).1).atomOrder = s.atomOrder := by
  simp [VisualizationServer.updateAtom, h]

theorem updateAtom_order_not_mem (s : VisualizationServer) (a : Atom)
    (h : a.atomId ∉ s.atomOrder) :
    ((s.updateAtom a).1).atomOrder = s.atomOrder ++ [a.atomId] := by
  simp [VisualizationServer.updateAtom, h]

theorem updateAtom_Inv {s : VisualizationServer} (a : Atom) (hInv : Inv s) :
    Inv ((s.updateAtom a).1) := by
  obtain ⟨h1, h2, h3, h4⟩ := hInv
  by_cases h : a.atomId ∈ s.atomOrder
  · have hkeys : a.atomId ∈ s.atoms.map Prod.fst := h3 _ h
    have e1 := updateAtom_order_mem s a h
    have e2 : ((s.updateAtom a).1).atoms.map Prod.fst = s.atoms.map Prod.fst := by
      rw [updateAtom_atoms]
      exact recordSet_keys_of_mem a hkeys
    exact ⟨by rw [e1]; exact h1, by rw [e2]; exact h2,
      by rw [e1, e2]; exact h3, by rw [e1, e2]; exact h4⟩
  · have hkeys : a.atomId ∉ s.atoms.map Prod.fst := fun hc => h (h4 _ hc)
    have e1 := updateAtom_order_not_mem s a h
    have e2 : ((s.updateAtom a).1).atoms.map Prod.fst = s.atoms.map Prod.fst ++ [a.atomId] := by
      rw [updateAtom_atoms]
      exact recordSet_keys_of_not_mem a hkeys
    refine ⟨?_, ?_, ?_, ?_⟩
    · rw [e1, List.nodup_append]
      refine ⟨h1, List.nodup_singleton _, ?_⟩
      intro x hx hx'
      rw [List.mem_singleton] at hx'
      subst hx'
      exact h hx
    · rw [e2, List.nodup_append]
      refine ⟨h2, List.nodup_singleton _, ?_⟩
      intro x hx hx'
      rw [List.mem_singleton] at hx'
      subst hx'
      exact hkeys hx
    · rw [e1, e2]
      intro k hk
      rcases List.mem_append.mp hk with hk | hk
      · exact List.mem_append.mpr (Or.inl (h3 k hk))
      · exact List.mem_append.mpr (Or.inr hk)
    · rw [e1, e2]
      intro k hk
      rcases List.mem_append.mp hk with hk | hk
      · exact List.mem_append.mpr (Or.inl (h4 k hk))
      · exact List.mem_append.mpr (Or.inr hk)

theorem foldl_updateAtom_Inv (l : List Atom) :
    ∀ s : VisualizationServer, Inv s →
      Inv (l.foldl (fun s a => (s.updateAtom a).1) s) := by
  induction l with
  | nil => intro s hs; simpa using hs
  | cons a l ih =>
    intro s hs
    simp only [List.foldl_cons]
    exact ih _ (updateAtom_Inv a hs)

theorem publishList_fresh (l : List Atom) :
    ∀ s : VisualizationServer,
      (∀ a ∈ l, a.atomId ∉ s.atoms.map Prod.fst ∧ a.atomId ∉ s.atomOrder) →
      (l.map Atom.atomId).Nodup →
      (l.foldl (fun s a => (s.updateAtom a).1) s).atoms =
        s.atoms ++ l.map (fun a => (a.atomId, a)) ∧
      (l.foldl (fun s a => (s.updateAtom a).1) s).atomOrder =
        s.atomOrder ++ l.map Atom.atomId := by
  induction l with
  | nil => intro s _ _; simp
  | cons a l ih =>
    intro s hfresh hnodup
    obtain ⟨hka, hoa⟩ := hfresh a (List.mem_cons_self a l)
    have e2 : ((s.updateAtom a).1).atoms = s.atoms ++ [(a.atomId, a)] := by
      rw [updateAtom_atoms]
      exact recordSet_unfold_neg a hka
    have e1 := updateAtom_order_not_mem s a hoa
    have hnd : (l.map Atom.atomId).Nodup := by
      simp only [List.map_cons, List.nodup_cons] at hnodup
      exact hnodup.2
    have hnotin : a.atomId ∉ l.map Atom.atomId := by
      simp only [List.map_cons, List.nodup_cons] at hnodup
      exact hnodup.1
    have hfresh' : ∀ b ∈ l, b.atomId ∉ ((s.updateAtom a).1).atoms.map Prod.fst ∧
        b.atomId ∉ ((s.updateAtom a).1).atomOrder := by
      intro b hb
      have hbk := (hfresh b (List.mem_cons_of_mem a hb)).1
      have hbo := (hfresh b (List.mem_cons_of_mem a hb)).2
      have hba : b.atomId ≠ a.atomId := by
        intro hc
        exact hnotin (hc ▸ List.mem_map_of_mem Atom.atomId hb)
      constructor
      · rw [e2]
        simp only [List.map_append, List.mem_append]
        rintro (hc | hc)
        · exact hbk hc
        · simp at hc
          exact hba hc
      · rw [e1]
        simp only [List.mem_append]
        rintro (hc | hc)
        · exact hbo hc
        · simp at hc
          exact hba hc
    have hmain := ih ((s.updateAtom a).1) hfresh' hnd
    constructor
    · rw [List.foldl_cons, hmain.1, e2]
      simp
    · rw [List.foldl_cons, hmain.2, e1]
      simp

end AoT

namespace AoT

/-! ### Claim theorems: graph state, publish and snapshot -/

/-- C4: publishing an atom whose id is already present in the graph state
fully replaces the stored atom — the stored value becomes the new atom,
all fields included — and leaves `atomOrder` (and hence its length)
unchanged. -/
theorem c4_last_write_wins (s : VisualizationServer) (a : Atom)
    (hInv : Inv s) (hmem : (recordGet s.atoms a.atomId).isSome = true) :
    recordGet ((s.updateAtom a).1).atoms a.atomId = some a ∧
    ((s.updateAtom a).1).atomOrder = s.atomOrder ∧
    ((s.updateAtom a).1).atomOrder.length = s.atomOrder.length := by
  have hkeys : a.atomId ∈ s.atoms.map Prod.fst := (recordGet_isSome_iff _ _).1 hmem
  have hord : a.atomId ∈ s.atomOrder := hInv.2.2.2 _ hkeys
  have e1 := updateAtom_order_mem s a hord
  refine ⟨?_, e1, by rw [e1]⟩
  rw [updateAtom_atoms]
  exact recordGet_recordSet_self _ _ _

/-- Witness for C4: after publishing the scenario atoms "a1" and "a2",
republishing id "a1" with changed content, kind, dependencies and flags
replaces the stored atom and keeps the order length at 2. -/
theorem c4_last_write_wins_witness :
    Inv (VisualizationServer.publishAll [exampleAtom1, exampleAtom2]) ∧
    (recordGet (VisualizationServer.publishAll [exampleAtom1, exampleAtom2]).atoms
      exampleAtom1b.atomId).isSome = true ∧
    (recordGet (((VisualizationServer.publishAll [exampleAtom1, exampleAtom2]).updateAtom
        exampleAtom1b).1).atoms exampleAtom1b.atomId = some exampleAtom1b ∧
      (((VisualizationServer.publishAll [exampleAtom1, exampleAtom2]).updateAtom
        exampleAtom1b).1).atomOrder =
        (VisualizationServer.publishAll [exampleAtom1, exampleAtom2]).atomOrder ∧
      (((VisualizationServer.publishAll [exampleAtom1, exampleAtom2]).updateAtom
        exampleAtom1b).1).atomOrder.length =
        (VisualizationServer.publishAll [exampleAtom1, exampleAtom2]).atomOrder.length) :=
  ⟨by decide, by decide,
   c4_last_write_wins (VisualizationServer.publishAll [exampleAtom1, exampleAtom2])
     exampleAtom1b (by decide) (by decide)⟩

/-- C5: starting from the empty state, every sequence of `updateAtom`
operations yields a state whose `atomOrder` lists exactly the keys of the
`atoms` record, each exactly once; and a single `updateAtom` either leaves
`atomOrder` unchanged (when the id was already present) or appends exactly
that one id at the end (when the id was new) — it never reorders or
truncates. -/
theorem c5_insertion_order_invariant :
    (∀ l : List Atom, Inv (VisualizationServer.publishAll l)) ∧
    (∀ (s : VisualizationServer) (a : Atom),
      (((s.updateAtom a).1).atomOrder = s.atomOrder ∧ a.atomId ∈ s.atomOrder) ∨
      (((s.updateAtom a).1).atomOrder = s.atomOrder ++ [a.atomId] ∧
        a.atomId ∉ s.atomOrder)) := by
  constructor
  · intro l
    exact foldl_updateAtom_Inv l VisualizationServer.empty (by decide)
  · intro s a
    by_cases h : a.atomId ∈ s.atomOrder
    · exact Or.inl ⟨updateAtom_order_mem s a h, h⟩
    · exact Or.inr ⟨updateAtom_order_not_mem s a h, h⟩

/-- C6: after publishing N atoms with pairwise distinct ids from the empty
state, the snapshot returned by `/api/atoms` contains exactly those N
atoms (in publish order) and an order sequence of length N with no
duplicates, and the `atoms-update` message sent to a newly connected
client carries the same data. -/
theorem c6_snapshot_completeness (l : List Atom)
    (hids : (l.map Atom.atomId).Nodup) :
    (VisualizationServer.publishAll l).snapshot.1 = l ∧
    (VisualizationServer.publishAll l).snapshot.2 = l.map Atom.atomId ∧
    (VisualizationServer.publishAll l).snapshot.2.length = l.length ∧
    (VisualizationServer.publishAll l).snapshot.2.Nodup ∧
    (VisualizationServer.publishAll l).onConnection =
      SocketMsg.atomsUpdate l (l.map Atom.atomId) := by
  have hfresh : ∀ a ∈ l, a.atomId ∉ VisualizationServer.empty.atoms.map Prod.fst ∧
      a.atomId ∉ VisualizationServer.empty.atomOrder := by
    intro a _
    exact ⟨by simp [VisualizationServer.empty], by simp [VisualizationServer.empty]⟩
  have h := publishList_fresh l VisualizationServer.empty hfresh hids
  have hatoms : (VisualizationServer.publishAll l).atoms =
      l.map fun a => (a.atomId, a) := by
    have h1 := h.1
    simpa [VisualizationServer.publishAll, VisualizationServer.empty] using h1
  have horder : (VisualizationServer.publishAll l).atomOrder = l.map Atom.atomId := by
    have h2 := h.2
    simpa [VisualizationServer.publishAll, VisualizationServer.empty] using h2
  have hvalues : recordValues ((VisualizationServer.publishAll l).atoms) = l := by
    rw [hatoms]
    unfold recordValues
    rw [List.map_map]
    have hcomp : (Prod.snd ∘ fun a : Atom => (a.atomId, a)) = id := rfl
    rw [hcomp, List.map_id]
  refine ⟨?_, ?_, ?_, ?_, ?_⟩
  · exact hvalues
  · exact horder
  · unfold VisualizationServer.snapshot
    rw [horder, List.length_map]
  · unfold VisualizationServer.snapshot
    rw [horder]
    exact hids
  · unfold VisualizationServer.onConnection
    rw [hvalues, horder]

/-- Witness for C6 at the spec's scenario: publishing "a1" then "a2" gives
a snapshot with exactly those two atoms and order ["a1", "a2"]. -/
theorem c6_snapshot_completeness_witness :
    ([exampleAtom1, exampleAtom2].map Atom.atomId).Nodup ∧
    ((VisualizationServer.publishAll [exampleAtom1, exampleAtom2]).snapshot.1 =
        [exampleAtom1, exampleAtom2] ∧
      (VisualizationServer.publishAll [exampleAtom1, exampleAtom2]).snapshot.2 =
        [exampleAtom1, exampleAtom2].map Atom.atomId ∧
      (VisualizationServer.publishAll [exampleAtom1, exampleAtom2]).snapshot.2.length =
        [exampleAtom1, exampleAtom2].length ∧
      (VisualizationServer.publishAll [exampleAtom1, exampleAtom2]).snapshot.2.Nodup ∧
      (VisualizationServer.publishAll [exampleAtom1, exampleAtom2]).onConnection =
        SocketMsg.atomsUpdate [exampleAtom1, exampleAtom2]
          ([exampleAtom1, exampleAtom2].map Atom.atomId)) :=
  ⟨by decide, c6_snapshot_completeness [exampleAtom1, exampleAtom2] (by decide)⟩

/-- C7: every `updateAtom` emits exactly two messages to the connected
clients, in this order: `atom-update` carrying the single new/updated
atom, then `atoms-order` carrying the full current order; and re-applying
either message to an observer state that has already applied it changes
nothing (re-delivery is idempotent). -/
theorem c7_publish_two_broadcasts :
    ∀ (s : VisualizationServer) (a : Atom),
      (s.updateAtom a).2 =
        [SocketMsg.atomUpdate a,
         SocketMsg.atomsOrder ((s.updateAtom a).1).atomOrder] ∧
      ((s.updateAtom a).2).length = 2 ∧
      (∀ o : ObserverState,
        (o.applyMsg (SocketMsg.atomUpdate a)).applyMsg (SocketMsg.atomUpdate a) =
          o.applyMsg (SocketMsg.atomUpdate a)) ∧
      (∀ (o : ObserverState) (ord : List String),
        (o.applyMsg (SocketMsg.atomsOrder ord)).applyMsg (SocketMsg.atomsOrder ord) =
          o.applyMsg (SocketMsg.atomsOrder ord)) := by
  intro s a
  refine ⟨rfl, rfl, ?_, ?_⟩
  · intro o
    simp [ObserverState.applyMsg, recordSet_idem]
  · intro o ord
    simp [ObserverState.applyMsg]

end AoT


namespace AoT

/-! ### Lemmas about the waitForServerOnPort loop -/

theorem waitGo_succ_pos (c : Nat → Bool) (i attempt r : Nat) (h : c attempt = true) :
    waitGo c i attempt (r + 1) = (true, [WaitEv.connectAttempt attempt true]) := by
  simp [waitGo, h]

theorem waitGo_succ_neg (c : Nat → Bool) (i attempt r : Nat) (h : c attempt = false) :
    waitGo c i attempt (r + 1) =
      ((waitGo c i (attempt + 1) r).1,
        WaitEv.connectAttempt attempt false ::
          WaitEv.sleep i :: (waitGo c i (attempt + 1) r).2) := by
  simp [waitGo, h]

theorem waitGo_res (c : Nat → Bool) (i : Nat) :
    ∀ (r attempt : Nat),
      (waitGo c i attempt r).1 = true ↔
        ∃ k, k < r ∧ c (attempt + k) = true := by
  intro r
  induction r with
  | zero =>
    intro attempt
    simp [waitGo]
  | succ r ih =>
    intro attempt
    cases h : c attempt with
    | true =>
      rw [waitGo_succ_pos c i attempt r h]
      constructor
      · intro _
        exact ⟨0, Nat.succ_pos r, by simpa using h⟩
      · intro _
        rfl
    | false =>
      rw [waitGo_succ_neg c i attempt r h]
      show (waitGo c i (attempt + 1) r).1 = true ↔ _
      rw [ih (attempt + 1)]
      constructor
      · rintro ⟨k, hk, hc⟩
        refine ⟨k + 1, by omega, ?_⟩
        rw [show attempt + (k + 1) = attempt + 1 + k by omega]
        exact hc
      · rintro ⟨k, hk, hc⟩
        cases k with
        | zero =>
          rw [Nat.add_zero] at hc
          rw [h] at hc
          exact absurd hc (by decide)
        | succ k =>
          refine ⟨k, by omega, ?_⟩
          rw [show attempt + 1 + k = attempt + (k + 1) by omega]
          exact hc

theorem waitGo_counts (c : Nat → Bool) (i : Nat) :
    ∀ (r attempt : Nat),
      countConnects (waitGo c i attempt r).2 ≤ r ∧
      countConnects (waitGo c i attempt r).2 =
        countSleeps (waitGo c i attempt r).2 +
          (if (waitGo c i attempt r).1 then 1 else 0) ∧
      sleepsAre i (waitGo c i attempt r).2 = true := by
  intro r
  induction r with
  | zero =>
    intro attempt
    simp [waitGo, countConnects, countSleeps, sleepsAre]
  | succ r ih =>
    intro attempt
    cases h : c attempt with
    | true =>
      rw [waitGo_succ_pos c i attempt r h]
      simp [countConnects, countSleeps, sleepsAre]
    | false =>
      obtain ⟨ih1, ih2, ih3⟩ := ih (attempt + 1)
      rw [waitGo_succ_neg c i attempt r h]
      refine ⟨?_, ?_, ?_⟩
      · simp only [countConnects]
        omega
      · simp only [countConnects, countSleeps]
        cases hres : (waitGo c i (attempt + 1) r).1 with
        | true =>
          rw [hres] at ih2
          simp at ih2 ⊢
          omega
        | false =>
          rw [hres] at ih2
          simp at ih2 ⊢
          omega
      · simp only [sleepsAre]
        simp [ih3]

theorem waitGo_all_fail (c : Nat → Bool) (i : Nat) :
    ∀ (r attempt : Nat),
      (∀ k, k < r → c (attempt + k) = false) →
      (waitGo c i attempt r).1 = false ∧
      countConnects (waitGo c i attempt r).2 = r := by
  intro r
  induction r with
  | zero =>
    intro attempt _
    simp [waitGo, countConnects]
  | succ r ih =>
    intro attempt hall
    have h0 : c attempt = false := by simpa using hall 0 (Nat.succ_pos r)
    have hrec := ih (attempt + 1) fun k hk => by
      rw [show attempt + 1 + k = attempt + (k + 1) by omega]
      exact hall (k + 1) (by omega)
    rw [waitGo_succ_neg c i attempt r h0]
    simp only [countConnects]
    exact ⟨hrec.1, by rw [hrec.2]⟩

theorem waitGo_first_success (c : Nat → Bool) (i : Nat) :
    ∀ (r attempt k : Nat), k < r → c (attempt + k) = true →
      (∀ j, j < k → c (attempt + j) = false) →
      (waitGo c i attempt r).1 = true ∧
      countConnects (waitGo c i attempt r).2 = k + 1 := by
  intro r
  induction r with
  | zero =>
    intro attempt k hk
    exact absurd hk (by omega)
  | succ r ih =>
    intro attempt k hk hc hprev
    cases k with
    | zero =>
      have h : c attempt = true := by simpa using hc
      rw [waitGo_succ_pos c i attempt r h]
      simp [countConnects]
    | succ k =>
      have h0 : c attempt = false := by simpa using hprev 0 (Nat.succ_pos k)
      have hrec := ih (attempt + 1) k (by omega)
        (by rw [show attempt + 1 + k = attempt + (k + 1) by omega]; exact hc)
        (fun j hj => by
          rw [show attempt + 1 + j = attempt + (j + 1) by omega]
          exact hprev (j + 1) (by omega))
      rw [waitGo_succ_neg c i attempt r h0]
      simp only [countConnects]
      exact ⟨hrec.1, by rw [hrec.2]⟩

/-- C10: `waitForServerOnPort` makes at most `maxAttempts` connect
attempts; it returns `true` exactly when some attempt below `maxAttempts`
connects; if the first success is at attempt `k` it stops after exactly
`k + 1` connect calls; if every attempt fails it returns `false` after
exactly `maxAttempts` connect calls; every sleep in the run lasts
`intervalMs`, with exactly one sleep per failed attempt; and the loop is a
total function, so it always terminates. -/
theorem c10_waitForServer_spec (c : Nat → Bool) (maxAttempts intervalMs : Nat) :
    countConnects (waitForServerOnPort c maxAttempts intervalMs).2 ≤ maxAttempts ∧
    ((waitForServerOnPort c maxAttempts intervalMs).1 = true ↔
      ∃ k, k < maxAttempts ∧ c k = true) ∧
    ((∀ k, k < maxAttempts → c k = false) →
      (waitForServerOnPort c maxAttempts intervalMs).1 = false ∧
      countConnects (waitForServerOnPort c maxAttempts intervalMs).2 = maxAttempts) ∧
    (∀ k, k < maxAttempts → c k = true → (∀ j, j < k → c j = false) →
      (waitForServerOnPort c maxAttempts intervalMs).1 = true ∧
      countConnects (waitForServerOnPort c maxAttempts intervalMs).2 = k + 1) ∧
    countConnects (waitForServerOnPort c maxAttempts intervalMs).2 =
      countSleeps (waitForServerOnPort c maxAttempts intervalMs).2 +
        (if (waitForServerOnPort c maxAttempts intervalMs).1 then 1 else 0) ∧
    sleepsAre intervalMs (waitForServerOnPort c maxAttempts intervalMs).2 = true := by
  unfold waitForServerOnPort
  obtain ⟨h1, h2, h3⟩ := waitGo_counts c intervalMs maxAttempts 0
  refine ⟨h1, ?_, ?_, ?_, h2, h3⟩
  · have h := waitGo_res c intervalMs maxAttempts 0
    simpa using h
  · intro hall
    exact waitGo_all_fail c intervalMs maxAttempts 0
      (fun k hk => by simpa using hall k hk)
  · intro k hk hc hprev
    exact waitGo_first_success c intervalMs maxAttempts 0 k hk
      (by simpa using hc) (fun j hj => by simpa using hprev j hj)

/-- Witness for C10 at a concrete run: with a server that first accepts at
attempt 2 and a budget of 5 attempts, the wait returns true after exactly
3 connect calls. -/
theorem c10_waitForServer_witness :
    (waitForServerOnPort (fun k => decide (k = 2)) 5 500).1 = true ∧
    countConnects (waitForServerOnPort (fun k => decide (k = 2)) 5 500).2 = 2 + 1 :=
  (c10_waitForServer_spec (fun k => decide (k = 2)) 5 500).2.2.2.1 2 (by decide)
    (by decide) (by decide)

end AoT
